import Mathlib

/-!
Verification of the MTCv3 encryption library (mtcv3-encryption-library).

The repository ships two generations of the same cipher side by side:

* the TypeScript tree `src/MTCV3.ts` + `src/helpers/encryptionUtils.ts`
  + the constants module (`src/unnamed/part_003`), whose mixing layer is an
  integer matrix product reduced mod 256 and whose decrypt performs no
  length validation and no padding-error masking; and
* the shipped build and its TypeScript twin (`src/unnamed/part_001`,
  `src/unnamed/part_002`), whose mixing layer is AES MixColumns over
  GF(2^8) (`gfMul`), and whose decrypt validates lengths and collapses all
  unpadding failures into one generic error.  The repository's test suite
  (`src/dist/__tests__/MTCV3.test.js`) imports this build.

Both generations are embedded below: namespace `EncryptionUtils` holds the
functions whose text is identical in both utility files, `Helpers` holds
the mod-256 specific functions of `src/helpers/encryptionUtils.ts`,
`Dist` the GF(2^8) specific functions of `part_002`/`part_001`, and
`MTCv3Src` / `MTCv3Dist` the two cipher classes.

Byte buffers are embedded as `List Nat` whose entries are < 256; thrown
JS errors become `Except`; external Node `crypto` primitives (PBKDF2,
SHA-256, `randomBytes`) are not part of the repository and enter the model
as explicit inputs (key material, digest function, IV bytes).
-/

namespace MTC

/-- One thrown error of `unpad` in `src/helpers/encryptionUtils.ts`:
`Invalid padding value` or `Inconsistent padding bytes`. -/
inductive UnpadError where
  | invalidValue
  | inconsistentPadding
deriving DecidableEq, Repr

/-- One thrown error of `unpad` in `src/unnamed/part_002` (and its build in
`part_001`): `Empty data buffer`, `Invalid padding value`, or
`Invalid padding pattern`. -/
inductive DistUnpadError where
  | emptyData
  | invalidValue
  | invalidPattern
deriving DecidableEq, Repr

/-- One thrown error of `MTCv3.decrypt` in `src/unnamed/part_001`:
`Invalid ciphertext length` or `Decryption failed: Invalid padding`. -/
inductive DecryptError where
  | invalidLength
  | paddingInvalid
deriving DecidableEq, Repr

/-- The loop body of the block splitting below, structured with explicit
fuel so that it is plain structural recursion; each pass consumes at least
one element, so `data.length` passes always suffice. -/
def chunkListGo : Nat → List Nat → Nat → List (List Nat)
  | 0, _, _ => []
  | fuel + 1, data, blockSize =>
    if data = [] ∨ blockSize = 0 then []
    else data.take blockSize :: chunkListGo fuel (data.drop blockSize) blockSize

/-- The block-splitting loop shared by `encrypt` and `decrypt`
(`for (let i = 0; i < data.length; i += blockSize) blocks.push(data.slice(i, i + blockSize))`).
The source never calls it with `blockSize = 0` (that would not terminate in
JS); the embedding returns `[]` in that unreachable case. -/
def chunkList (data : List Nat) (blockSize : Nat) : List (List Nat) :=
  chunkListGo data.length data blockSize

/-- The byte-wise XOR loops
(`xored[i] = a[i] ^ b[i]` over `i < a.length`, into `Buffer.alloc(a.length)`).
Reading `b` past its end gives JS `undefined`, which `^` coerces to 0;
`getD _ 0` reproduces that. -/
def xorBytes (a b : List Nat) : List Nat :=
  (List.range a.length).map (fun i => a.getD i 0 ^^^ b.getD i 0)

/-- `MTCv3.fillMatrix(data, 'row')`: write `data[i]` to row `i / N`,
column `i % N` of an N×N zero matrix.  Both cipher classes only ever call
it with `order = 'row'` and `data.length ≤ N²`; unwritten cells stay 0,
which `getD _ 0` reproduces. -/
def fillMatrix (data : List Nat) (N : Nat) : List (List Nat) :=
  (List.range N).map (fun row => (List.range N).map (fun col => data.getD (row * N + col) 0))

/-- `MTCv3.reshape(data, N)`: identical row-major refill of an N×N zero
matrix (index → (i / N, i % N)). -/
def reshape (data : List Nat) (N : Nat) : List (List Nat) :=
  (List.range N).map (fun row => (List.range N).map (fun col => data.getD (row * N + col) 0))

end MTC

namespace MTC.EncryptionUtils

/-- `substituteBytes` (identical in `src/helpers/encryptionUtils.ts` and
`part_002`): `data.map((byte) => sBox[byte])`. -/
def substituteBytes (data : List Nat) (sBox : List Nat) : List Nat :=
  data.map (fun byte => sBox.getD byte 0)

/-- `inverseSubstituteBytes`: `data.map((byte) => invSBox[byte])`. -/
def inverseSubstituteBytes (data : List Nat) (invSBox : List Nat) : List Nat :=
  data.map (fun byte => invSBox.getD byte 0)

/-- The per-row body of `shiftRows`: with `shift = shiftAmounts[i] % row.length`,
`row.slice(-shift).concat(row.slice(0, -shift))`.  For `0 < shift < len`,
`slice(-shift)` is the last `shift` elements (`drop (len - shift)`) and
`slice(0, -shift)` the first `len - shift` (`take (len - shift)`); for
`shift = 0` JS yields `row.concat([])` and the formula below yields
`[] ++ row`, the same list. -/
def shiftRowsRow (row : List Nat) (amount : Nat) : List Nat :=
  let shift := amount % row.length
  row.drop (row.length - shift) ++ row.take (row.length - shift)

/-- The per-row body of `inverseShiftRows`: with
`shift = shiftAmounts[i] % row.length`,
`row.slice(shift).concat(row.slice(0, shift))`. -/
def inverseShiftRowsRow (row : List Nat) (amount : Nat) : List Nat :=
  let shift := amount % row.length
  row.drop shift ++ row.take shift

/-- `shiftRows(matrix, shiftAmounts)`: `matrix.map((row, i) => ...)` using
`shiftAmounts[i]`.  A missing amount is JS `undefined`, making the computed
shift `NaN` and the row come back unchanged; `getD _ 0` (shift 0) reproduces
that. -/
def shiftRows (matrix : List (List Nat)) (shiftAmounts : List Nat) : List (List Nat) :=
  matrix.mapIdx (fun i row => shiftRowsRow row (shiftAmounts.getD i 0))

/-- `inverseShiftRows(matrix, shiftAmounts)`. -/
def inverseShiftRows (matrix : List (List Nat)) (shiftAmounts : List Nat) : List (List Nat) :=
  matrix.mapIdx (fun i row => inverseShiftRowsRow row (shiftAmounts.getD i 0))

/-- `permuteColumns(matrix, permutation)`:
`matrix.map((row) => permutation.map((colIndex) => row[colIndex]))`. -/
def permuteColumns (matrix : List (List Nat)) (permutation : List Nat) : List (List Nat) :=
  matrix.map (fun row => permutation.map (fun colIndex => row.getD colIndex 0))

/-- `permuteBits(data, key, round)`: rotate each byte left by
`shift = key[round % key.length] % 8`
(`((byte << shift) | (byte >> (8 - shift))) & 0xff`). -/
def permuteBits (data : List Nat) (key : List Nat) (round : Nat) : List Nat :=
  let shift := key.getD (round % key.length) 0 % 8
  data.map (fun byte => ((byte <<< shift) ||| (byte >>> (8 - shift))) &&& 0xff)

/-- `inversePermuteBits(data, key, round)`: rotate each byte right by the
same shift (`((byte >> shift) | (byte << (8 - shift))) & 0xff`). -/
def inversePermuteBits (data : List Nat) (key : List Nat) (round : Nat) : List Nat :=
  let shift := key.getD (round % key.length) 0 % 8
  data.map (fun byte => ((byte >>> shift) ||| (byte <<< (8 - shift))) &&& 0xff)

/-- The destructuring swap
`[permutation[i], permutation[j]] = [permutation[j], permutation[i]]`. -/
def listSwap (l : List Nat) (i j : Nat) : List Nat :=
  (l.set i (l.getD j 0)).set j (l.getD i 0)

/-- `generateColumnPermutation(key, round, N)`.  The SHA-256 digest of
`key ‖ [round]` comes from Node `crypto` (outside the repository); it is
passed in as `digestFn key round`; a SHA-256 digest always has 32 bytes,
so the hash is never empty at the call sites.  The Fisher–Yates loop runs
`i = N-1, ..., 1` with swap index `j = hash[i % hash.length] % (i + 1)`. -/
def generateColumnPermutation (digestFn : List Nat → Nat → List Nat)
    (key : List Nat) (round : Nat) (N : Nat) : List Nat :=
  let hash := digestFn key round
  let indices := ((List.range (N - 1)).map (· + 1)).reverse
  indices.foldl (fun permutation i =>
    let j := hash.getD (i % hash.length) 0 % (i + 1)
    listSwap permutation i j) (List.range N)

/-- `generateInverseColumnPermutation(permutation)`:
`inverse[p] = i` for each entry `p` at index `i`.  The helpers file starts
from `Array(N).fill(0)` and `part_002` from a sparse `Array(N)`; for the
permutation inputs that reach it every slot is written exactly once, so
both compute this value. -/
def generateInverseColumnPermutation (permutation : List Nat) : List Nat :=
  permutation.enum.foldl (fun inverse pair => inverse.set pair.2 pair.1)
    (List.replicate permutation.length 0)

/-- `pad(data, blockSize)` (identical in both utility files):
append `padding = blockSize - (data.length % blockSize)` bytes of value
`padding`.  `Buffer.alloc(padding, padding)` stores the fill value as an
unsigned 8-bit integer, i.e. `padding & 255`; `% 256` reproduces that. -/
def pad (data : List Nat) (blockSize : Nat) : List Nat :=
  let padding := blockSize - data.length % blockSize
  data ++ List.replicate padding (padding % 256)

end MTC.EncryptionUtils

namespace MTC.Helpers

open MTC.EncryptionUtils

/-- `mixMatrix(matrix, mixingMatrix)` of `src/helpers/encryptionUtils.ts`:
`result[i][j] = (Σ_k mixingMatrix[i][k] * matrix[k][j]) % 256` — an integer
matrix product reduced mod 256 (the file's own comment:
"matrix multiplication modulo 256"). -/
def mixMatrix (matrix mixingMatrix : List (List Nat)) : List (List Nat) :=
  let N := matrix.length
  (List.range N).map (fun i => (List.range N).map (fun j =>
    ((List.range N).foldl (fun sum k =>
      sum + (mixingMatrix.getD i []).getD k 0 * (matrix.getD k []).getD j 0) 0) % 256))

/-- `inverseMixMatrix(matrix, inverseMixingMatrix)` of
`src/helpers/encryptionUtils.ts`: the same integer product mod 256 with the
inverse mixing matrix. -/
def inverseMixMatrix (matrix inverseMixingMatrix : List (List Nat)) : List (List Nat) :=
  let N := matrix.length
  (List.range N).map (fun i => (List.range N).map (fun j =>
    ((List.range N).foldl (fun sum k =>
      sum + (inverseMixingMatrix.getD i []).getD k 0 * (matrix.getD k []).getD j 0) 0) % 256))

/-- `unpad(data)` of `src/helpers/encryptionUtils.ts`.  On an empty buffer
`data[data.length - 1]` is JS `undefined`: both range checks
(`undefined === 0`, `undefined > 0`) are false, the check loop's bound is
`NaN` so it never runs, and `data.slice(0, 0 - undefined)` is
`slice(0, NaN) = []`; the `none` branch reproduces that. -/
def unpad (data : List Nat) : Except UnpadError (List Nat) :=
  match data.getLast? with
  | none => Except.ok []
  | some padding =>
    if padding = 0 ∨ padding > data.length then Except.error .invalidValue
    else if (data.drop (data.length - padding)).all (· == padding) then
      Except.ok (data.take (data.length - padding))
    else Except.error .inconsistentPadding

end MTC.Helpers

namespace MTC.Dist

open MTC.EncryptionUtils

/-- The step applied to `a` in each `gfMul` iteration:
`hiBitSet = a & 0x80; a = (a << 1) & 0xff; if (hiBitSet) a ^= 0x1b`. -/
def gfStep (a : Nat) : Nat :=
  let hiBitSet := a &&& 0x80
  let a1 := (a <<< 1) &&& 0xff
  if hiBitSet ≠ 0 then a1 ^^^ 0x1b else a1

/-- The 8-iteration loop of `gfMul`, on state `(p, a, b)`:
`if (b & 1) p ^= a;` then the `gfStep` shift-reduce on `a`, then `b >>= 1`. -/
def gfMulGo : Nat → Nat → Nat → Nat → Nat
  | 0, p, _, _ => p
  | counter + 1, p, a, b =>
    let p1 := if b &&& 1 = 1 then p ^^^ a else p
    gfMulGo counter p1 (gfStep a) (b >>> 1)

/-- `gfMul(a, b)` of `src/unnamed/part_002` (and its build in `part_001`):
carry-less GF(2^8) multiplication, 8 bit positions of `b`, XOR-accumulating
and reducing by the AES polynomial constant `0x1b`. -/
def gfMul (a b : Nat) : Nat :=
  gfMulGo 8 0 a b

/-- `mixMatrix(matrix)` of `src/unnamed/part_002` (AES MixColumns): per
column `c` with `a = matrix.map(row => row[c])`, the four hardcoded
GF(2^8)/XOR combinations.  The source writes rows 0–3 of an N×N
zero-initialised result; for the 4×4 matrices the cipher feeds it (the only
supported configuration) that is exactly the four rows built here. -/
def mixMatrix (matrix : List (List Nat)) : List (List Nat) :=
  let N := matrix.length
  let a := fun c => (matrix.map (fun row => row.getD c 0))
  [(List.range N).map (fun c =>
      gfMul ((a c).getD 0 0) 2 ^^^ gfMul ((a c).getD 1 0) 3 ^^^ (a c).getD 2 0 ^^^ (a c).getD 3 0),
   (List.range N).map (fun c =>
      (a c).getD 0 0 ^^^ gfMul ((a c).getD 1 0) 2 ^^^ gfMul ((a c).getD 2 0) 3 ^^^ (a c).getD 3 0),
   (List.range N).map (fun c =>
      (a c).getD 0 0 ^^^ (a c).getD 1 0 ^^^ gfMul ((a c).getD 2 0) 2 ^^^ gfMul ((a c).getD 3 0) 3),
   (List.range N).map (fun c =>
      gfMul ((a c).getD 0 0) 3 ^^^ (a c).getD 1 0 ^^^ (a c).getD 2 0 ^^^ gfMul ((a c).getD 3 0) 2)]

/-- `inverseMixMatrix(matrix)` of `src/unnamed/part_002` (AES
InvMixColumns), with the {9, 11, 13, 14} coefficients. -/
def inverseMixMatrix (matrix : List (List Nat)) : List (List Nat) :=
  let N := matrix.length
  let a := fun c => (matrix.map (fun row => row.getD c 0))
  [(List.range N).map (fun c =>
      gfMul ((a c).getD 0 0) 14 ^^^ gfMul ((a c).getD 1 0) 11 ^^^ gfMul ((a c).getD 2 0) 13 ^^^ gfMul ((a c).getD 3 0) 9),
   (List.range N).map (fun c =>
      gfMul ((a c).getD 0 0) 9 ^^^ gfMul ((a c).getD 1 0) 14 ^^^ gfMul ((a c).getD 2 0) 11 ^^^ gfMul ((a c).getD 3 0) 13),
   (List.range N).map (fun c =>
      gfMul ((a c).getD 0 0) 13 ^^^ gfMul ((a c).getD 1 0) 9 ^^^ gfMul ((a c).getD 2 0) 14 ^^^ gfMul ((a c).getD 3 0) 11),
   (List.range N).map (fun c =>
      gfMul ((a c).getD 0 0) 11 ^^^ gfMul ((a c).getD 1 0) 13 ^^^ gfMul ((a c).getD 2 0) 9 ^^^ gfMul ((a c).getD 3 0) 14)]

/-- `unpad(data, blockSize)` of `src/unnamed/part_002` (and `part_001`):
reject an empty buffer; read the last byte; reject 0, values past the
buffer length, and values past the block size; verify the trailing bytes;
strip. -/
def unpad (data : List Nat) (blockSize : Nat) : Except DistUnpadError (List Nat) :=
  if data.length = 0 then Except.error .emptyData
  else
    let lastByte := (data.getLast?).getD 0
    if lastByte = 0 ∨ lastByte > data.length ∨ lastByte > blockSize then
      Except.error .invalidValue
    else if (data.drop (data.length - lastByte)).all (· == lastByte) then
      Except.ok (data.take (data.length - lastByte))
    else Except.error .invalidPattern

end MTC.Dist

namespace MTC.EncryptionConstants

/-- `MIXING_MATRIX` of the constants module (`src/unnamed/part_003`). -/
def MIXING_MATRIX : List (List Nat) :=
  [[2, 3, 1, 1],
   [1, 2, 3, 1],
   [1, 1, 2, 3],
   [3, 1, 1, 2]]

/-- The `while (a > 1)` loop of `modInverse` (extended Euclid on JS
numbers; all loop values are exact small integers, so `Int` arithmetic
matches).  State `(a, modulus, x, y)`; each pass sets
`q = floor(a / modulus)` and rotates to
`(modulus, a % modulus, y, x - q * y)`.  Structured with fuel; 64 passes
far exceeds what the one call site (`modInverse(233, 256)`) consumes. -/
def modInverseGo : Nat → Int → Int → Int → Int → Int
  | 0, _, _, x, _ => x
  | fuel + 1, a, modulus, x, y =>
    if a > 1 then
      let q := a / modulus
      modInverseGo fuel modulus (a % modulus) y (x - q * y)
    else x

/-- `modInverse(a, modulus)` of `src/unnamed/part_003`. -/
def modInverse (a modulus : Int) : Int :=
  let m0 := modulus
  if modulus = 1 then 0
  else
    let x := modInverseGo 64 a modulus 1 0
    if x < 0 then x + m0 else x

/-- `matrixInverseMod256(matrix)` of `src/unnamed/part_003`: the manually
defined adjugate, the hardcoded determinant `-23`, and
`adjugate * modInverse(detMod, 256) mod 256`.  JS `((-23 % 256) + 256) % 256`
is 233; Lean's `Int` `%` (emod) gives 233 for the same expression, so the
formula is kept verbatim.  The source throws when `gcd(detMod, 256) ≠ 1`;
`Nat.gcd 233 256 = 1`, so that branch (embedded as `[]`) is unreachable. -/
def matrixInverseMod256 (_matrix : List (List Nat)) : List (List Nat) :=
  let adjugate : List (List Nat) :=
    [[4, 253, 11, 239],
     [239, 4, 253, 11],
     [11, 239, 4, 253],
     [247, 11, 235, 4]]
  let det : Int := -23
  let detMod := ((det % 256) + 256) % 256
  if Nat.gcd detMod.toNat 256 ≠ 1 then []
  else
    let detInv := (modInverse detMod 256).toNat
    adjugate.map (fun row => row.map (fun value => ((value * detInv) % 256 + 256) % 256))

/-- `INVERSE_MIXING_MATRIX = matrixInverseMod256(MIXING_MATRIX)`
(`src/unnamed/part_003`). -/
def INVERSE_MIXING_MATRIX : List (List Nat) :=
  matrixInverseMod256 MIXING_MATRIX

end MTC.EncryptionConstants

namespace MTC

/-- A constructed `MTCv3` cipher instance.  `keySchedule` and `iv` hold the
outputs of the external Node `crypto` primitives the constructor calls
(PBKDF2 key material sliced per round; `randomBytes(matrixSize²)`), and
`digestFn` stands for `crypto.createHash('sha256')` as used by
`generateColumnPermutation`.  Both `MTCV3.ts` and `part_001` build this
same state and never mutate it afterwards. -/
structure MTCv3 where
  rounds : Nat
  matrixSize : Nat
  keySchedule : List (List Nat)
  iv : List Nat
  digestFn : List Nat → Nat → List Nat

/-- The `MTCv3` constructor, with the PBKDF2 output (`keyMaterial`, as
derived from the password and salt) and the `randomBytes` draw (`ivBytes`)
as explicit inputs: the key schedule is
`keyMaterial.slice(r * matrixSize, (r + 1) * matrixSize)` for each round
`r`, and the IV is stored once on the instance. -/
def makeInstance (keyMaterial ivBytes : List Nat)
    (digestFn : List Nat → Nat → List Nat) (rounds matrixSize : Nat) : MTCv3 :=
  { rounds := rounds
    matrixSize := matrixSize
    keySchedule := (List.range rounds).map
      (fun r => ((keyMaterial.drop (r * matrixSize)).take matrixSize))
    iv := ivBytes
    digestFn := digestFn }

end MTC

namespace MTC.EncryptionConstants

/-- Modelled from the spec: `AES_S_BOX` is imported from
`./constants/encryptionConstants`, whose S-box tables are not among the
source files; per the spec it is a "fixed 256-entry permutation" and per
its name and the README the AES S-box, embedded here as that standard
table. -/
def AES_S_BOX : List Nat := [
  99, 124, 119, 123, 242, 107, 111, 197, 48, 1, 103, 43, 254, 215, 171, 118,
  202, 130, 201, 125, 250, 89, 71, 240, 173, 212, 162, 175, 156, 164, 114, 192,
  183, 253, 147, 38, 54, 63, 247, 204, 52, 165, 229, 241, 113, 216, 49, 21,
  4, 199, 35, 195, 24, 150, 5, 154, 7, 18, 128, 226, 235, 39, 178, 117,
  9, 131, 44, 26, 27, 110, 90, 160, 82, 59, 214, 179, 41, 227, 47, 132,
  83, 209, 0, 237, 32, 252, 177, 91, 106, 203, 190, 57, 74, 76, 88, 207,
  208, 239, 170, 251, 67, 77, 51, 133, 69, 249, 2, 127, 80, 60, 159, 168,
  81, 163, 64, 143, 146, 157, 56, 245, 188, 182, 218, 33, 16, 255, 243, 210,
  205, 12, 19, 236, 95, 151, 68, 23, 196, 167, 126, 61, 100, 93, 25, 115,
  96, 129, 79, 220, 34, 42, 144, 136, 70, 238, 184, 20, 222, 94, 11, 219,
  224, 50, 58, 10, 73, 6, 36, 92, 194, 211, 172, 98, 145, 149, 228, 121,
  231, 200, 55, 109, 141, 213, 78, 169, 108, 86, 244, 234, 101, 122, 174, 8,
  186, 120, 37, 46, 28, 166, 180, 198, 232, 221, 116, 31, 75, 189, 139, 138,
  112, 62, 181, 102, 72, 3, 246, 14, 97, 53, 87, 185, 134, 193, 29, 158,
  225, 248, 152, 17, 105, 217, 142, 148, 155, 30, 135, 233, 206, 85, 40, 223,
  140, 161, 137, 13, 191, 230, 66, 104, 65, 153, 45, 15, 176, 84, 187, 22]
/-- Modelled from the spec: `AES_INV_S_BOX`, the exact functional inverse
of `AES_S_BOX` (same missing constants module). -/
def AES_INV_S_BOX : List Nat := [
  82, 9, 106, 213, 48, 54, 165, 56, 191, 64, 163, 158, 129, 243, 215, 251,
  124, 227, 57, 130, 155, 47, 255, 135, 52, 142, 67, 68, 196, 222, 233, 203,
  84, 123, 148, 50, 166, 194, 35, 61, 238, 76, 149, 11, 66, 250, 195, 78,
  8, 46, 161, 102, 40, 217, 36, 178, 118, 91, 162, 73, 109, 139, 209, 37,
  114, 248, 246, 100, 134, 104, 152, 22, 212, 164, 92, 204, 93, 101, 182, 146,
  108, 112, 72, 80, 253, 237, 185, 218, 94, 21, 70, 87, 167, 141, 157, 132,
  144, 216, 171, 0, 140, 188, 211, 10, 247, 228, 88, 5, 184, 179, 69, 6,
  208, 44, 30, 143, 202, 63, 15, 2, 193, 175, 189, 3, 1, 19, 138, 107,
  58, 145, 17, 65, 79, 103, 220, 234, 151, 242, 207, 206, 240, 180, 230, 115,
  150, 172, 116, 34, 231, 173, 53, 133, 226, 249, 55, 232, 28, 117, 223, 110,
  71, 241, 26, 113, 29, 41, 197, 137, 111, 183, 98, 14, 170, 24, 190, 27,
  252, 86, 62, 75, 198, 210, 121, 32, 154, 219, 192, 254, 120, 205, 90, 244,
  31, 221, 168, 51, 136, 7, 199, 49, 177, 18, 16, 89, 39, 128, 236, 95,
  96, 81, 127, 169, 25, 181, 74, 13, 45, 229, 122, 159, 147, 201, 156, 239,
  160, 224, 59, 77, 174, 42, 245, 176, 200, 235, 187, 60, 131, 83, 153, 97,
  23, 43, 4, 126, 186, 119, 214, 38, 225, 105, 20, 99, 85, 33, 12, 125]

end MTC.EncryptionConstants

namespace MTC.MTCv3Src

open MTC.EncryptionUtils MTC.EncryptionConstants

/-- `MTCv3.encryptBlock` of `src/MTCV3.ts`: for each round `r`, fill the
matrix row-major, shift rows by the sub-key bytes, permute columns by the
keyed permutation, substitute through `AES_S_BOX`, mix with
`mixMatrix(·, MIXING_MATRIX)` (the mod-256 product), and bit-rotate. -/
def encryptBlock (inst : MTCv3) (block : List Nat) : List Nat :=
  (List.range inst.rounds).foldl (fun data r =>
    let key := inst.keySchedule.getD r []
    let shiftAmounts := key
    let matrix := fillMatrix data inst.matrixSize
    let shiftedMatrix := shiftRows matrix shiftAmounts
    let permutation := generateColumnPermutation inst.digestFn key r inst.matrixSize
    let permutedMatrix := permuteColumns shiftedMatrix permutation
    let flatData := substituteBytes permutedMatrix.flatten AES_S_BOX
    let mixedMatrix := Helpers.mixMatrix (reshape flatData inst.matrixSize) MIXING_MATRIX
    permuteBits mixedMatrix.flatten key r) block

/-- `MTCv3.decryptBlock` of `src/MTCV3.ts`: rounds in descending order,
each undoing bit-rotation, mixing (`inverseMixMatrix(·, INVERSE_MIXING_MATRIX)`),
substitution, column permutation, and row shifts. -/
def decryptBlock (inst : MTCv3) (block : List Nat) : List Nat :=
  (List.range inst.rounds).foldr (fun r data =>
    let key := inst.keySchedule.getD r []
    let shiftAmounts := key
    let data1 := inversePermuteBits data key r
    let matrix := fillMatrix data1 inst.matrixSize
    let matrix2 := Helpers.inverseMixMatrix matrix INVERSE_MIXING_MATRIX
    let flatData := inverseSubstituteBytes matrix2.flatten AES_INV_S_BOX
    let matrix3 := reshape flatData inst.matrixSize
    let permutation := generateColumnPermutation inst.digestFn key r inst.matrixSize
    let inversePermutation := generateInverseColumnPermutation permutation
    let matrix4 := permuteColumns matrix3 inversePermutation
    let matrix5 := inverseShiftRows matrix4 shiftAmounts
    matrix5.flatten) block

/-- `MTCv3.encrypt` of `src/MTCV3.ts`, on the UTF-8 bytes of the
plaintext: pad, split into blocks, CBC-chain (XOR with the previous
ciphertext, starting from the instance IV), and prepend the IV.  Hex
encoding of the result is external to the byte-level model. -/
def encrypt (inst : MTCv3) (data : List Nat) : List Nat :=
  let blockSize := inst.matrixSize * inst.matrixSize
  let padded := pad data blockSize
  let blocks := chunkList padded blockSize
  let state := blocks.foldl (fun (acc : List (List Nat) × List Nat) block =>
    let xored := xorBytes block acc.2
    let encrypted := encryptBlock inst xored
    (acc.1 ++ [encrypted], encrypted)) ([], inst.iv)
  inst.iv ++ state.1.flatten

/-- `MTCv3.decrypt` of `src/MTCV3.ts`, on the hex-decoded bytes: split off
the IV, decrypt each block, XOR with the running previous ciphertext, and
unpad.  This version performs no length validation; the only throwing
operation is `unpad`, whose errors propagate unwrapped. -/
def decrypt (inst : MTCv3) (ciphertextWithIV : List Nat) : Except UnpadError (List Nat) :=
  let blockSize := inst.matrixSize * inst.matrixSize
  let iv := ciphertextWithIV.take blockSize
  let ciphertext := ciphertextWithIV.drop blockSize
  let blocks := chunkList ciphertext blockSize
  let state := blocks.foldl (fun (acc : List (List Nat) × List Nat) block =>
    let decrypted := decryptBlock inst block
    let xored := xorBytes decrypted acc.2
    (acc.1 ++ [xored], block)) ([], iv)
  Helpers.unpad state.1.flatten

end MTC.MTCv3Src

namespace MTC.MTCv3Dist

open MTC.EncryptionUtils MTC.EncryptionConstants

/-- `MTCv3.encryptBlock` of `src/unnamed/part_001`: as in `MTCv3Src` but
the mixing layer is the GF(2^8) `mixMatrix` of `part_002`. -/
def encryptBlock (inst : MTCv3) (block : List Nat) : List Nat :=
  (List.range inst.rounds).foldl (fun data r =>
    let key := inst.keySchedule.getD r []
    let shiftAmounts := key
    let matrix := fillMatrix data inst.matrixSize
    let shiftedMatrix := shiftRows matrix shiftAmounts
    let permutation := generateColumnPermutation inst.digestFn key r inst.matrixSize
    let permutedMatrix := permuteColumns shiftedMatrix permutation
    let flatData := substituteBytes permutedMatrix.flatten AES_S_BOX
    let mixedMatrix := Dist.mixMatrix (reshape flatData inst.matrixSize)
    permuteBits mixedMatrix.flatten key r) block

/-- `MTCv3.decryptBlock` of `src/unnamed/part_001`, with the GF(2^8)
`inverseMixMatrix` of `part_002`. -/
def decryptBlock (inst : MTCv3) (block : List Nat) : List Nat :=
  (List.range inst.rounds).foldr (fun r data =>
    let key := inst.keySchedule.getD r []
    let shiftAmounts := key
    let data1 := inversePermuteBits data key r
    let matrix := fillMatrix data1 inst.matrixSize
    let matrix2 := Dist.inverseMixMatrix matrix
    let flatData := inverseSubstituteBytes matrix2.flatten AES_INV_S_BOX
    let matrix3 := reshape flatData inst.matrixSize
    let permutation := generateColumnPermutation inst.digestFn key r inst.matrixSize
    let inversePermutation := generateInverseColumnPermutation permutation
    let matrix4 := permuteColumns matrix3 inversePermutation
    let matrix5 := inverseShiftRows matrix4 shiftAmounts
    matrix5.flatten) block

/-- `MTCv3.encrypt` of `src/unnamed/part_001` (same CBC structure as the
`MTCV3.ts` version, GF(2^8) block cipher). -/
def encrypt (inst : MTCv3) (data : List Nat) : List Nat :=
  let blockSize := inst.matrixSize * inst.matrixSize
  let padded := pad data blockSize
  let blocks := chunkList padded blockSize
  let state := blocks.foldl (fun (acc : List (List Nat) × List Nat) block =>
    let xored := xorBytes block acc.2
    let encrypted := encryptBlock inst xored
    (acc.1 ++ [encrypted], encrypted)) ([], inst.iv)
  inst.iv ++ state.1.flatten

/-- The CBC chain inside `MTCv3.decrypt` of `src/unnamed/part_001`
(between the length checks and `unpad`): split off the IV, decrypt each
block, XOR with the running previous ciphertext, concatenate. -/
def cbcDecrypt (inst : MTCv3) (ciphertextWithIV : List Nat) : List Nat :=
  let blockSize := inst.matrixSize * inst.matrixSize
  let iv := ciphertextWithIV.take blockSize
  let ciphertext := ciphertextWithIV.drop blockSize
  let blocks := chunkList ciphertext blockSize
  let state := blocks.foldl (fun (acc : List (List Nat) × List Nat) block =>
    let decrypted := decryptBlock inst block
    let xored := xorBytes decrypted acc.2
    (acc.1 ++ [xored], block)) ([], iv)
  state.1.flatten

/-- `MTCv3.decrypt` of `src/unnamed/part_001`: throw
`Invalid ciphertext length` when the input is shorter than one block or
the remainder after the IV is not block-aligned; then CBC-decrypt; then
`unpad`, any failure of which is caught and rethrown as the single generic
`Decryption failed: Invalid padding`. -/
def decrypt (inst : MTCv3) (ciphertextWithIV : List Nat) : Except DecryptError (List Nat) :=
  let blockSize := inst.matrixSize * inst.matrixSize
  if ciphertextWithIV.length < blockSize then Except.error .invalidLength
  else if (ciphertextWithIV.drop blockSize).length % blockSize ≠ 0 then Except.error .invalidLength
  else
    match Dist.unpad (cbcDecrypt inst ciphertextWithIV) blockSize with
    | Except.ok unpadded => Except.ok unpadded
    | Except.error _ => Except.error .paddingInvalid

end MTC.MTCv3Dist

namespace MTC

/-- Right rotation of a list by `k` places, the specification-side notion
used to describe what `shiftRows` does to a row (`List.rotate` itself is
left rotation). -/
def rotRight (l : List Nat) (k : Nat) : List Nat :=
  l.rotate (l.length - k % l.length)

/-- GF(2^8) dot product, from the spec's words for the mixing layer:
multiply coefficient and entry with `gfMul` and XOR-accumulate. -/
def gfDot (coeffs column : List Nat) : Nat :=
  (List.zipWith Dist.gfMul coeffs column).foldr (fun x acc => x ^^^ acc) 0

/-- The GF(2^8) matrix-vector product of the fixed mixing matrix with each
column of `matrix`, stated from the spec's words ("treat each column ... as
a vector and multiply by a fixed N×N mixing matrix over GF(2^8), combining
via GF(2^8) multiply-then-XOR"); row `i`, column `c` is the `gfDot` of
mixing-matrix row `i` with column `c`. -/
def gfMatVecMix (matrix : List (List Nat)) : List (List Nat) :=
  (List.range 4).map (fun i =>
    (List.range matrix.length).map (fun c =>
      gfDot (EncryptionConstants.MIXING_MATRIX.getD i [])
        (matrix.map (fun row => row.getD c 0))))

/-- A concrete stand-in for the SHA-256 digests drawn by
`generateColumnPermutation` (the hash itself is Node `crypto`, external to
the repository): an arbitrary fixed 32-byte value. -/
def sampleDigest : List Nat → Nat → List Nat :=
  fun _ _ => (List.range 32).map (fun i => (i * 37 + 5) % 256)

/-- A concrete 16-byte IV (one `randomBytes(16)` draw). -/
def sampleIV : List Nat :=
  (List.range 16).map (fun i => (i * 7 + 3) % 256)

/-- A concrete instance with one round over the default 4×4 matrix
(constructed from 4 bytes of PBKDF2 key material, `sampleIV`, and
`sampleDigest`). -/
def oneRoundInstance : MTCv3 :=
  makeInstance [1, 2, 3, 4] sampleIV sampleDigest 1 4

/-- A concrete instance with zero rounds over the default 4×4 matrix: the
constructor accepts any round count, and with zero rounds the block
transform is the identity, which isolates the CBC/padding plumbing. -/
def zeroRoundInstance : MTCv3 :=
  makeInstance [] sampleIV sampleDigest 0 4

/-- The UTF-8 bytes of the README/test plaintext `"HELLO WORLD"`. -/
def helloWorldBytes : List Nat :=
  [72, 69, 76, 76, 79, 32, 87, 79, 82, 76, 68]

end MTC

namespace MTC

/-! ### Claim theorems and supporting lemmas -/

/-- C1: the spec's round-trip property — `decrypt(encrypt(P)) == P` on one
instance for every plaintext `P` — fails on the `src/MTCV3.ts` cipher: on
a concrete one-round instance, decrypting the encryption of
`"HELLO WORLD"` throws `Invalid padding value` instead of returning the
plaintext.  The cause is the `INVERSE_MIXING_MATRIX` constant of
`src/unnamed/part_003` (hardcoded determinant −23 where the true
determinant of `MIXING_MATRIX` is −35, and a corrupted adjugate row), so
`inverseMixMatrix` does not undo `mixMatrix` and `decryptBlock` does not
invert `encryptBlock`. -/
theorem src_cipher_roundTrip_fails :
    MTCv3Src.decrypt oneRoundInstance (MTCv3Src.encrypt oneRoundInstance helloWorldBytes)
      = Except.error UnpadError.invalidValue := rfl

/-- C3: the claimed mixing round-trip `inverseMixMatrix(mixMatrix(M)) == M`
fails for the `src/helpers/encryptionUtils.ts` pair with the
`part_003` constants: at the repository's own test matrix
`[[1..4],[5..8],[9..12],[13..16]]` the composition returns a different
matrix. -/
theorem src_mix_roundTrip_fails :
    Helpers.inverseMixMatrix
        (Helpers.mixMatrix [[1, 2, 3, 4], [5, 6, 7, 8], [9, 10, 11, 12], [13, 14, 15, 16]]
          EncryptionConstants.MIXING_MATRIX)
        EncryptionConstants.INVERSE_MIXING_MATRIX
      ≠ [[1, 2, 3, 4], [5, 6, 7, 8], [9, 10, 11, 12], [13, 14, 15, 16]] := by
  decide

/-- C7 (counterexample): on the `src/MTCV3.ts` cipher the IV prefix of the
output is precisely the per-instance constant `iv` drawn once in the
constructor — two encrypt calls with different plaintexts on the same
instance emit the same IV prefix, refuting "freshly randomized on every
encrypt call" and "not a fixed constant of the instance". -/
theorem encrypt_iv_prefix_is_instance_constant :
    (MTCv3Src.encrypt zeroRoundInstance [65]).take 16 = zeroRoundInstance.iv
    ∧ (MTCv3Src.encrypt zeroRoundInstance [66]).take 16 = zeroRoundInstance.iv := by
  exact ⟨rfl, rfl⟩

/-- C7 (amended): the IV is drawn once per instance at construction and
reused by every `encrypt` call — for every instance whose IV has the block
length, the first N² output bytes equal the instance's stored `iv`
(`encrypt` draws no randomness of its own, so it is a deterministic
function of the plaintext for a fixed instance). -/
theorem encrypt_iv_prefix_eq_instance_iv (inst : MTCv3) (data : List Nat)
    (hiv : inst.iv.length = inst.matrixSize * inst.matrixSize) :
    (MTCv3Src.encrypt inst data).take (inst.matrixSize * inst.matrixSize) = inst.iv := by
  rw [← hiv]
  exact List.take_left _ _

/-- Witness for `encrypt_iv_prefix_eq_instance_iv` at a concrete instance
and plaintext. -/
theorem encrypt_iv_prefix_eq_instance_iv_witness :
    (MTCv3Src.encrypt oneRoundInstance helloWorldBytes).take 16 = oneRoundInstance.iv :=
  encrypt_iv_prefix_eq_instance_iv oneRoundInstance helloWorldBytes (by decide)

/-- C10: on the `src/MTCV3.ts` cipher with the default 4×4 dimension, any
input that decodes to exactly one 16-byte block (IV only, zero ciphertext
blocks) decrypts without error to the empty byte string: the block loop
runs zero times and `unpad` receives an empty buffer, whose out-of-range
last-byte read makes every padding check pass vacuously. -/
theorem src_decrypt_single_block_ok_empty (inst : MTCv3) (w : List Nat)
    (hN : inst.matrixSize = 4) (hw : w.length = 16) :
    MTCv3Src.decrypt inst w = Except.ok [] := by
  unfold MTCv3Src.decrypt
  simp only [hN, List.drop_eq_nil_of_le (show w.length ≤ 4 * 4 by omega)]
  rfl

/-- Witness for `src_decrypt_single_block_ok_empty` at a concrete
instance and 16-byte input. -/
theorem src_decrypt_single_block_ok_empty_witness :
    MTCv3Src.decrypt oneRoundInstance sampleIV = Except.ok [] :=
  src_decrypt_single_block_ok_empty oneRoundInstance sampleIV rfl (by decide)

end MTC

namespace MTC

/-- C5: whenever `unpad` fails inside the `part_001` decrypt — with any of
its error kinds (empty buffer, invalid padding value, inconsistent
pattern) — `decrypt` surfaces the one generic padding failure
(`Decryption failed: Invalid padding`) and produces no plaintext. -/
theorem dist_decrypt_padding_error_generic (inst : MTCv3) (w : List Nat) (e : DistUnpadError)
    (h1 : inst.matrixSize * inst.matrixSize ≤ w.length)
    (h2 : (w.length - inst.matrixSize * inst.matrixSize) % (inst.matrixSize * inst.matrixSize) = 0)
    (h3 : Dist.unpad (MTCv3Dist.cbcDecrypt inst w) (inst.matrixSize * inst.matrixSize)
            = Except.error e) :
    MTCv3Dist.decrypt inst w = Except.error DecryptError.paddingInvalid := by
  unfold MTCv3Dist.decrypt
  simp only [List.length_drop, if_neg (Nat.not_lt.mpr h1), if_neg (not_not_intro h2), h3]

/-- Witness for `dist_decrypt_padding_error_generic`: a 32-byte all-zero
input on a concrete instance (the CBC result ends in byte 0, so `unpad`
fails with an invalid padding value, masked to the generic error). -/
theorem dist_decrypt_padding_error_generic_witness :
    MTCv3Dist.decrypt zeroRoundInstance (List.replicate 32 0)
      = Except.error DecryptError.paddingInvalid :=
  dist_decrypt_padding_error_generic zeroRoundInstance (List.replicate 32 0)
    DistUnpadError.invalidValue (by decide) (by decide) rfl

/-- C4: the `part_001` decrypt throws its invalid-ciphertext-length error
exactly when the hex-decoded input is shorter than one block (N² bytes,
which covers the empty string) or the remaining length after the leading
IV block is not a multiple of the block size; in every such case no
plaintext is produced, and for block-aligned inputs that error never
occurs. -/
theorem dist_decrypt_invalidLength_iff (inst : MTCv3) (w : List Nat)
    (hN : 0 < inst.matrixSize) :
    MTCv3Dist.decrypt inst w = Except.error DecryptError.invalidLength
      ↔ w.length < inst.matrixSize * inst.matrixSize
        ∨ (w.length - inst.matrixSize * inst.matrixSize) % (inst.matrixSize * inst.matrixSize)
            ≠ 0 := by
  unfold MTCv3Dist.decrypt
  simp only [List.length_drop]
  by_cases hlt : w.length < inst.matrixSize * inst.matrixSize
  · simp [hlt]
  · simp only [if_neg hlt]
    by_cases hmod :
        (w.length - inst.matrixSize * inst.matrixSize) % (inst.matrixSize * inst.matrixSize) = 0
    · simp only [if_neg (not_not_intro hmod)]
      cases hu : Dist.unpad (MTCv3Dist.cbcDecrypt inst w) (inst.matrixSize * inst.matrixSize) <;>
        simp [hlt, hmod, hu]
    · simp [hlt, hmod]

/-- Witness for `dist_decrypt_invalidLength_iff`: the empty input errors
with the invalid-length condition on a concrete instance. -/
theorem dist_decrypt_invalidLength_iff_witness :
    MTCv3Dist.decrypt zeroRoundInstance [] = Except.error DecryptError.invalidLength :=
  (dist_decrypt_invalidLength_iff zeroRoundInstance [] (by decide)).mpr (Or.inl (by decide))

end MTC

namespace MTC

open EncryptionUtils

set_option maxRecDepth 8192 in
/-- C6 (counterexample): with block size 256 the claim fails as stated —
`Buffer.alloc(padding, padding)` stores the fill value as an unsigned
8-bit integer, so `pad([], 256)` appends 256 bytes of value 0 (not the
padding length), and `unpad` rejects them instead of returning the
original buffer. -/
theorem unpad_pad_fails_at_blockSize_256 :
    Dist.unpad (pad [] 256) 256 = Except.error DistUnpadError.invalidValue
    ∧ Dist.unpad (pad [] 256) 256 ≠ Except.ok [] := by
  have h : Dist.unpad (pad [] 256) 256 = Except.error DistUnpadError.invalidValue := rfl
  exact ⟨h, by rw [h]; exact fun hc => nomatch hc⟩

/-- C6 (amended): for every byte buffer `D` and block size `S` with
`1 ≤ S ≤ 255` (so the padding value fits in a byte), `unpad(pad(D,S),S)`
succeeds and returns `D`; `pad` appends `S - D.length % S ∈ [1, S]` bytes,
each holding that padding-length value, and when `D.length` is a multiple
of `S` a full extra block is appended (`pad(D,S).length = D.length + S`). -/
theorem unpad_pad_roundTrip (D : List Nat) (S : Nat)
    (hS1 : 1 ≤ S) (hS2 : S ≤ 255) (hD : ∀ b ∈ D, b < 256) :
    Dist.unpad (pad D S) S = Except.ok D
    ∧ pad D S = D ++ List.replicate (S - D.length % S) (S - D.length % S)
    ∧ 1 ≤ S - D.length % S ∧ S - D.length % S ≤ S
    ∧ (D.length % S = 0 → (pad D S).length = D.length + S) := by
  have hmod : D.length % S < S := Nat.mod_lt _ (by omega)
  set p := S - D.length % S with hp
  have hp1 : 1 ≤ p := by omega
  have hp2 : p ≤ S := Nat.sub_le _ _
  have hpad : pad D S = D ++ List.replicate p p := by
    show D ++ List.replicate p (p % 256) = D ++ List.replicate p p
    rw [Nat.mod_eq_of_lt (show p < 256 by omega)]
  have hlen : (D ++ List.replicate p p).length = D.length + p := by
    simp
  have hlast : (D ++ List.replicate p p).getLast? = some p := by
    rw [List.getLast?_append_of_ne_nil _ (by
      intro hnil
      rw [List.eq_nil_iff_forall_not_mem] at hnil
      exact hnil p (List.mem_replicate.mpr ⟨by omega, rfl⟩))]
    rw [List.getLast?_replicate, if_neg (by omega)]
  refine ⟨?_, hpad, hp1, hp2, fun h0 => by simp [hpad, hp, h0, Nat.sub_zero]⟩
  have hall : ((List.replicate p p).all (· == p)) = true := by
    simp only [List.all_eq_true, List.mem_replicate]
    intro b hb
    exact beq_iff_eq.mpr hb.2
  rw [hpad]
  unfold Dist.unpad
  rw [if_neg (by simp only [hlen]; omega)]
  simp only [hlast, Option.getD_some, hlen]
  rw [if_neg (by omega), show D.length + p - p = D.length by omega,
    List.drop_left, List.take_left, if_pos hall]

/-- Witness for `unpad_pad_roundTrip` at the test suite's own example:
the 11-byte `"Hello World"` buffer with block size 16. -/
theorem unpad_pad_roundTrip_witness :
    Dist.unpad (pad [72, 101, 108, 108, 111, 32, 87, 111, 114, 108, 100] 16) 16
      = Except.ok [72, 101, 108, 108, 111, 32, 87, 111, 114, 108, 100] :=
  (unpad_pad_roundTrip [72, 101, 108, 108, 111, 32, 87, 111, 114, 108, 100] 16
    (by decide) (by decide) (by decide)).1

end MTC

namespace MTC

open EncryptionUtils

/-- The `shiftRows` row body is a right rotation by the shift amount. -/
theorem shiftRowsRow_eq_rotRight (row : List Nat) (amount : Nat) :
    shiftRowsRow row amount = rotRight row amount := by
  unfold shiftRowsRow rotRight
  rw [List.rotate_eq_drop_append_take (Nat.sub_le _ _)]

/-- The `inverseShiftRows` row body is a left rotation (`List.rotate`) by
the shift amount. -/
theorem inverseShiftRowsRow_eq_rotate (row : List Nat) (amount : Nat) :
    inverseShiftRowsRow row amount = row.rotate amount := by
  unfold inverseShiftRowsRow
  cases row with
  | nil => simp
  | cons x xs =>
    rw [← List.rotate_mod, List.rotate_eq_drop_append_take (Nat.le_of_lt (Nat.mod_lt _ (by simp)))]

/-- C8 (counterexample): `shiftRows` does not rotate rows left and
`inverseShiftRows` does not rotate rows right: on the single-row matrix
`[[1,2,3,4]]` with shift amount 1, `shiftRows` yields `[4,1,2,3]` while a
left rotation gives `[2,3,4,1]`, and `inverseShiftRows` yields `[2,3,4,1]`
while a right rotation gives `[4,1,2,3]`. -/
theorem shiftRows_not_left_rotation :
    shiftRows [[1, 2, 3, 4]] [1] ≠ [List.rotate [1, 2, 3, 4] 1]
    ∧ inverseShiftRows [[1, 2, 3, 4]] [1] ≠ [rotRight [1, 2, 3, 4] 1] := by
  constructor <;> decide

/-- C8 (amended): with the directions swapped relative to the claim,
`shiftRows` rotates row `i` right (toward higher column indices) by
`shiftAmounts[i] mod N`, and `inverseShiftRows` rotates row `i` left by
the same amount. -/
theorem shiftRows_right_inverse_left (matrix : List (List Nat)) (shiftAmounts : List Nat)
    (i : Nat) (hi : i < matrix.length) :
    (shiftRows matrix shiftAmounts).getD i []
        = rotRight (matrix.getD i []) (shiftAmounts.getD i 0)
    ∧ (inverseShiftRows matrix shiftAmounts).getD i []
        = (matrix.getD i []).rotate (shiftAmounts.getD i 0) := by
  have h1 : i < (shiftRows matrix shiftAmounts).length := by
    simp [shiftRows, List.length_mapIdx, hi]
  have h2 : i < (inverseShiftRows matrix shiftAmounts).length := by
    simp [inverseShiftRows, List.length_mapIdx, hi]
  rw [List.getD_eq_getElem _ _ h1, List.getD_eq_getElem _ _ h2, List.getD_eq_getElem _ _ hi]
  unfold shiftRows inverseShiftRows
  rw [List.getElem_mapIdx, List.getElem_mapIdx,
    shiftRowsRow_eq_rotRight, inverseShiftRowsRow_eq_rotate]
  exact ⟨rfl, rfl⟩

/-- Witness for `shiftRows_right_inverse_left` on a concrete 4×4 matrix,
shift vector, and row index. -/
theorem shiftRows_right_inverse_left_witness :
    (shiftRows [[1, 2, 3, 4], [5, 6, 7, 8], [9, 10, 11, 12], [13, 14, 15, 16]]
        [5, 6, 7, 8]).getD 1 []
      = rotRight [5, 6, 7, 8] 6
    ∧ (inverseShiftRows [[1, 2, 3, 4], [5, 6, 7, 8], [9, 10, 11, 12], [13, 14, 15, 16]]
        [5, 6, 7, 8]).getD 1 []
      = List.rotate [5, 6, 7, 8] 6 :=
  shiftRows_right_inverse_left
    [[1, 2, 3, 4], [5, 6, 7, 8], [9, 10, 11, 12], [13, 14, 15, 16]] [5, 6, 7, 8] 1 (by decide)

end MTC

namespace MTC

set_option maxRecDepth 400000

/-- A list of length four is literally a four-element list. -/
theorem exists_eq_four {α : Type} (l : List α) (h : l.length = 4) :
    ∃ a b c d, l = [a, b, c, d] := by
  cases l with
  | nil => simp at h
  | cons a t =>
    cases t with
    | nil => simp at h
    | cons b t2 =>
      cases t2 with
      | nil => simp at h
      | cons c t3 =>
        cases t3 with
        | nil => simp at h
        | cons d t4 =>
          cases t4 with
          | nil => exact ⟨a, b, c, d, rfl⟩
          | cons e t5 => simp at h

/-- `gfMul` with coefficient 1 on the left is the identity on bytes. -/
theorem gfMul_one_of_lt : ∀ a : Nat, a < 256 → Dist.gfMul 1 a = a := by decide

/-- `gfMul` with coefficient 2 commutes on bytes. -/
theorem gfMul_two_comm : ∀ a : Nat, a < 256 → Dist.gfMul 2 a = Dist.gfMul a 2 := by decide

/-- `gfMul` with coefficient 3 commutes on bytes. -/
theorem gfMul_three_comm : ∀ a : Nat, a < 256 → Dist.gfMul 3 a = Dist.gfMul a 3 := by decide

/-- C2: on every 4×4 byte matrix, the mixing layer of the shipped cipher
(`mixMatrix` of `part_002`/`part_001`, built on `gfMul` with reduction
constant 0x1B) computes exactly the GF(2^8) matrix-vector product of the
fixed mixing matrix `[[2,3,1,1],[1,2,3,1],[1,1,2,3],[3,1,1,2]]` with each
column — GF multiply then XOR accumulation, not integer
multiply-and-add mod 256 (the stale `src/helpers/encryptionUtils.ts`
`mixMatrix` computes the latter and differs, e.g. at a column entry 0x80). -/
theorem dist_mixMatrix_eq_gf_matvec (M : List (List Nat)) (hlen : M.length = 4)
    (hrow : ∀ row ∈ M, row.length = 4)
    (hbyte : ∀ row ∈ M, ∀ b ∈ row, b < 256) :
    Dist.mixMatrix M = gfMatVecMix M := by
  obtain ⟨r0, r1, r2, r3, rfl⟩ := exists_eq_four M hlen
  obtain ⟨a0, a1, a2, a3, rfl⟩ := exists_eq_four r0 (hrow _ (by simp))
  obtain ⟨b0, b1, b2, b3, rfl⟩ := exists_eq_four r1 (hrow _ (by simp))
  obtain ⟨c0, c1, c2, c3, rfl⟩ := exists_eq_four r2 (hrow _ (by simp))
  obtain ⟨d0, d1, d2, d3, rfl⟩ := exists_eq_four r3 (hrow _ (by simp))
  have ha0 : a0 < 256 := hbyte [a0, a1, a2, a3] (by simp) a0 (by simp)
  have ha1 : a1 < 256 := hbyte [a0, a1, a2, a3] (by simp) a1 (by simp)
  have ha2 : a2 < 256 := hbyte [a0, a1, a2, a3] (by simp) a2 (by simp)
  have ha3 : a3 < 256 := hbyte [a0, a1, a2, a3] (by simp) a3 (by simp)
  have hb0 : b0 < 256 := hbyte [b0, b1, b2, b3] (by simp) b0 (by simp)
  have hb1 : b1 < 256 := hbyte [b0, b1, b2, b3] (by simp) b1 (by simp)
  have hb2 : b2 < 256 := hbyte [b0, b1, b2, b3] (by simp) b2 (by simp)
  have hb3 : b3 < 256 := hbyte [b0, b1, b2, b3] (by simp) b3 (by simp)
  have hc0 : c0 < 256 := hbyte [c0, c1, c2, c3] (by simp) c0 (by simp)
  have hc1 : c1 < 256 := hbyte [c0, c1, c2, c3] (by simp) c1 (by simp)
  have hc2 : c2 < 256 := hbyte [c0, c1, c2, c3] (by simp) c2 (by simp)
  have hc3 : c3 < 256 := hbyte [c0, c1, c2, c3] (by simp) c3 (by simp)
  have hd0 : d0 < 256 := hbyte [d0, d1, d2, d3] (by simp) d0 (by simp)
  have hd1 : d1 < 256 := hbyte [d0, d1, d2, d3] (by simp) d1 (by simp)
  have hd2 : d2 < 256 := hbyte [d0, d1, d2, d3] (by simp) d2 (by simp)
  have hd3 : d3 < 256 := hbyte [d0, d1, d2, d3] (by simp) d3 (by simp)
  simp only [Dist.mixMatrix, gfMatVecMix, gfDot, EncryptionConstants.MIXING_MATRIX,
    List.length_cons, List.length_nil]
  norm_num [List.range_succ, gfMul_one_of_lt, gfMul_two_comm, gfMul_three_comm,
    ha0, ha1, ha2, ha3, hb0, hb1, hb2, hb3, hc0, hc1, hc2, hc3, hd0, hd1, hd2, hd3,
    Nat.xor_assoc]

/-- Witness for `dist_mixMatrix_eq_gf_matvec` at the repository test
suite's matrix. -/
theorem dist_mixMatrix_eq_gf_matvec_witness :
    Dist.mixMatrix [[1, 2, 3, 4], [5, 6, 7, 8], [9, 10, 11, 12], [13, 14, 15, 16]]
      = gfMatVecMix [[1, 2, 3, 4], [5, 6, 7, 8], [9, 10, 11, 12], [13, 14, 15, 16]] :=
  dist_mixMatrix_eq_gf_matvec _ (by decide) (by decide) (by decide)

end MTC

namespace MTC

open EncryptionUtils

/-- Swapping the entries at two in-bounds positions permutes the list. -/
theorem listSwap_perm (l : List Nat) (i j : Nat) (hi : i < l.length) (hj : j < l.length) :
    (listSwap l i j).Perm l := by
  unfold listSwap
  rw [List.getD_eq_getElem _ _ hj, List.getD_eq_getElem _ _ hi]
  rw [List.perm_iff_count]
  intro a
  have hsetlen : j < (l.set i l[j]).length := by simp [hj]
  have hgj : (l.set i l[j])[j] = l[j] := by
    by_cases hij : i = j
    · subst hij; exact List.getElem_set_self _
    · exact List.getElem_set_ne hij _
  rw [List.count_set l[i] a (l.set i l[j]) j hsetlen, List.count_set l[j] a l i hi,
    hgj]
  have hA : (if (l[i] == a) = true then 1 else 0) ≤ List.count a l := by
    split
    · rename_i h
      have hm : a ∈ l := beq_iff_eq.mp h ▸ List.getElem_mem hi
      exact List.count_pos_iff.mpr hm
    · exact Nat.zero_le _
  by_cases h1 : (l[i] == a) = true <;> by_cases h2 : (l[j] == a) = true <;>
    simp only [h1, h2, if_true, if_false] <;> simp_all <;> omega

/-- Folding in-bounds swaps over an index list permutes the start list. -/
theorem foldl_listSwap_perm (step : Nat → Nat) (idxs : List Nat) :
    ∀ l : List Nat, (∀ i ∈ idxs, i < l.length ∧ step i < l.length) →
      (idxs.foldl (fun permutation i => listSwap permutation i (step i)) l).Perm l := by
  induction idxs with
  | nil => intro l _; exact List.Perm.refl l
  | cons i rest ih =>
    intro l h
    have hi := (h i (by simp)).1
    have hj := (h i (by simp)).2
    have hperm1 : (listSwap l i (step i)).Perm l := listSwap_perm l i (step i) hi hj
    have hlen : (listSwap l i (step i)).length = l.length := hperm1.length_eq
    rw [List.foldl_cons]
    exact (ih (listSwap l i (step i)) (fun k hk => by
      rw [hlen]; exact h k (List.mem_cons_of_mem _ hk))).trans hperm1

/-- The keyed Fisher–Yates shuffle of `generateColumnPermutation` always
produces a permutation of `0..N-1`, whatever digest bytes drive it. -/
theorem generateColumnPermutation_perm (digestFn : List Nat → Nat → List Nat)
    (key : List Nat) (round : Nat) (N : Nat) :
    (generateColumnPermutation digestFn key round N).Perm (List.range N) := by
  unfold generateColumnPermutation
  refine foldl_listSwap_perm
    (fun i => (digestFn key round).getD (i % (digestFn key round).length) 0 % (i + 1)) _ _ ?_
  intro i hi
  simp only [List.mem_reverse, List.mem_map, List.mem_range] at hi
  obtain ⟨k, hk, rfl⟩ := hi
  refine ⟨by simp only [List.length_range]; omega, ?_⟩
  simp only [List.length_range]
  exact lt_of_lt_of_le (Nat.mod_lt _ (Nat.succ_pos _)) (by omega)

/-- Folding index-value writes (`acc.set pair.2 pair.1`) preserves length. -/
theorem foldl_set_length (pairs : List (Nat × Nat)) :
    ∀ init : List Nat,
      (pairs.foldl (fun acc pair => acc.set pair.2 pair.1) init).length = init.length := by
  induction pairs with
  | nil => intro _; rfl
  | cons p rest ih => intro init; rw [List.foldl_cons, ih, List.length_set]

/-- A position never written by the fold keeps its starting value. -/
theorem foldl_set_getD_of_not_mem (pairs : List (Nat × Nat)) (q : Nat) :
    ∀ init : List Nat, q ∉ pairs.map Prod.snd →
      (pairs.foldl (fun acc pair => acc.set pair.2 pair.1) init).getD q 0 = init.getD q 0 := by
  induction pairs with
  | nil => intro _ _; rfl
  | cons p rest ih =>
    intro init hq
    simp only [List.map_cons, List.mem_cons, not_or] at hq
    rw [List.foldl_cons, ih _ hq.2, List.getD_eq_getElem?_getD, List.getD_eq_getElem?_getD,
      List.getElem?_set_ne (fun h => hq.1 h.symm)]

/-- When the write positions are distinct, an in-bounds write survives the
whole fold: position `q` holds `i` for the unique pair `(i, q)`. -/
theorem foldl_set_getD_of_mem (pairs : List (Nat × Nat)) (i q : Nat) :
    ∀ init : List Nat, (i, q) ∈ pairs → (pairs.map Prod.snd).Nodup → q < init.length →
      (pairs.foldl (fun acc pair => acc.set pair.2 pair.1) init).getD q 0 = i := by
  induction pairs with
  | nil => intro _ h; simp at h
  | cons p rest ih =>
    intro init hmem hnd hq
    simp only [List.map_cons, List.nodup_cons] at hnd
    rcases List.mem_cons.mp hmem with heq | hmem2
    · obtain rfl := heq.symm
      rw [List.foldl_cons, foldl_set_getD_of_not_mem rest q _ hnd.1,
        List.getD_eq_getElem _ _ (by simp [hq]), List.getElem_set_self]
    · rw [List.foldl_cons]
      exact ih _ hmem2 hnd.2 (by simp [hq])

end MTC

namespace MTC

open EncryptionUtils

/-- C9: for every key buffer, round index, dimension `N ≥ 1` and digest
bytes, `generateColumnPermutation` returns a bijection of `{0..N-1}` (a
list that is a permutation of `range N`), and for every matrix with rows
of length `N`, permuting columns by it and then by
`generateInverseColumnPermutation` of it restores the matrix. -/
theorem generateColumnPermutation_bijection_inverse (digestFn : List Nat → Nat → List Nat)
    (key : List Nat) (round N : Nat) (hN : 1 ≤ N)
    (M : List (List Nat)) (hrow : ∀ row ∈ M, row.length = N) :
    (generateColumnPermutation digestFn key round N).Perm (List.range N)
    ∧ permuteColumns (permuteColumns M (generateColumnPermutation digestFn key round N))
        (generateInverseColumnPermutation (generateColumnPermutation digestFn key round N))
      = M := by
  set p := generateColumnPermutation digestFn key round N with hpdef
  have hperm : p.Perm (List.range N) := generateColumnPermutation_perm digestFn key round N
  refine ⟨hperm, ?_⟩
  have hlenp : p.length = N := by rw [hperm.length_eq, List.length_range]
  have hnd : p.Nodup := hperm.nodup_iff.mpr (List.nodup_range N)
  have hmemlt : ∀ x ∈ p, x < N := fun x hx => List.mem_range.mp (hperm.mem_iff.mp hx)
  set inv := generateInverseColumnPermutation p with hinvdef
  have hlenInv : inv.length = N := by
    rw [hinvdef]
    unfold generateInverseColumnPermutation
    rw [foldl_set_length, List.length_replicate, hlenp]
  have hinvget : ∀ k (hk : k < p.length), inv.getD p[k] 0 = k := by
    intro k hk
    rw [hinvdef]
    unfold generateInverseColumnPermutation
    refine foldl_set_getD_of_mem p.enum k p[k] _ ?_ ?_ ?_
    · exact List.mem_iff_getElem.mpr ⟨k, by simpa [List.enum_length] using hk,
        by rw [List.getElem_enum]⟩
    · rw [List.enum_map_snd]
      exact hnd
    · rw [List.length_replicate, hlenp]
      exact hmemlt _ (List.getElem_mem hk)
  have hsurj : ∀ j, j < N → ∃ k, ∃ hk : k < p.length, p[k] = j ∧ inv.getD j 0 = k := by
    intro j hj
    have hjp : j ∈ p := hperm.mem_iff.mpr (List.mem_range.mpr hj)
    obtain ⟨k, hk, hkj⟩ := List.mem_iff_getElem.mp hjp
    exact ⟨k, hk, hkj, by rw [← hkj]; exact hinvget k hk⟩
  unfold permuteColumns
  rw [List.map_map]
  have hrow1 : ∀ row ∈ M,
      inv.map (fun c => (p.map (fun colIndex => row.getD colIndex 0)).getD c 0) = row := by
    intro row hr
    have hrl : row.length = N := hrow row hr
    apply List.ext_getElem (by simp [hlenInv, hrl])
    intro n h1 h2
    rw [List.getElem_map]
    obtain ⟨k, hk, hpk, hinvj⟩ := hsurj n (by omega)
    have hn2 : n < inv.length := by simpa using h1
    have hcn : inv[n] = k := by
      rw [← List.getD_eq_getElem inv 0 hn2, hinvj]
    rw [hcn, List.getD_eq_getElem _ _ (by simp [hk] : k < (p.map
      (fun colIndex => row.getD colIndex 0)).length), List.getElem_map, hpk,
      List.getD_eq_getElem _ _ (by omega : n < row.length)]
  calc M.map (fun row =>
          inv.map (fun c => (p.map (fun colIndex => row.getD colIndex 0)).getD c 0))
      = M.map id := List.map_congr_left hrow1
    _ = M := List.map_id M

/-- Witness for `generateColumnPermutation_bijection_inverse` at a
concrete digest, key, round, dimension 4, and matrix. -/
theorem generateColumnPermutation_bijection_inverse_witness :
    (generateColumnPermutation sampleDigest [1, 2, 3, 4] 0 4).Perm (List.range 4)
    ∧ permuteColumns
        (permuteColumns [[1, 2, 3, 4], [5, 6, 7, 8], [9, 10, 11, 12], [13, 14, 15, 16]]
          (generateColumnPermutation sampleDigest [1, 2, 3, 4] 0 4))
        (generateInverseColumnPermutation (generateColumnPermutation sampleDigest [1, 2, 3, 4] 0 4))
      = [[1, 2, 3, 4], [5, 6, 7, 8], [9, 10, 11, 12], [13, 14, 15, 16]] :=
  generateColumnPermutation_bijection_inverse sampleDigest [1, 2, 3, 4] 0 4 (by decide)
    [[1, 2, 3, 4], [5, 6, 7, 8], [9, 10, 11, 12], [13, 14, 15, 16]] (by decide)

end MTC
